import Mathlib

/-!
# mlpack maximum-entropy model: label lookups, evaluation and GIS trainer

A shallow embedding of `src/src/model.cpp` (the `BaseModel` lookups and the
one-argument `MaxentModel::eval`) and of the inline members of `GISTrainer` in
`src/include/mlpack/gistrainer.hpp`.  The parameter update of
`GISTrainer::next_iteration`, which is declared there without a body, follows the
specification.

Conventions of the embedding

* `vector<T>` is a `List T`; a position is a `Nat`.  An access `v[i]` outside
  `0 <= i < v.size()` has no defined behaviour in C++ and is `none` here.
* `int` results that can be the sentinel `-1` are `Int`.  Sizes and positions
  of the label tables and of a distribution are taken to lie in the range of
  `int`, so the conversions `int n = outcomes.size()` and
  `return it - olabels.begin()` keep their value.
* `double` values of a distribution are an arbitrary type `α` carrying a
  decidable linear order (no NaN).  A `double` member of the trainer holds the
  rational that the stored binary64 value equals: a literal is rounded to the
  nearest value with a 53-bit significand, ties to even (`double_literal`).
-/

set_option linter.dupNamespace false

namespace mlpack

/-! ## Data model -/

/-- Modelled from the spec: the feature label to id map `pmap` (its declaration
in `model.hpp` is absent).  A `map<string,int>` is a list of key/value entries. -/
abbrev PMap := List (String × Int)

/-- Modelled from the spec: the two label tables of `BaseModel` (the class
declaration in `model.hpp` is absent): the outcome label list and the feature
label to id map. -/
structure BaseModel where
  olabels : List String
  pmap : PMap
  deriving DecidableEq, Repr

/-! ## `BaseModel::best_outcome` -/

/-- The loop `for (i = 1; i < n; i++) if (outcomes[i] > outcomes[best]) best = i;`
with `rem = n - i` iterations still to run.  The result is the final `best`. -/
def best_outcome.loop {α : Type} [LinearOrder α] (outcomes : List α) :
    (rem i best : Nat) → Option Nat
  | 0, _, best => some best
  | rem + 1, i, best =>
    match outcomes[i]?, outcomes[best]? with
    | some x, some y =>
      best_outcome.loop outcomes rem (i + 1) (if x > y then i else best)
    | _, _ => none

/-- The value of `best` when the scan of `best_outcome` ends:
`best = 0; n = outcomes.size(); for (i = 1; i < n; i++) ...`. -/
def best_outcome.scan {α : Type} [LinearOrder α] (outcomes : List α) : Option Nat :=
  let n := outcomes.length
  best_outcome.loop outcomes (n - 1) 1 0

/-- `string BaseModel::best_outcome(vector<double> outcomes)`: scan, then
`return olabels[best]`. -/
def BaseModel.best_outcome {α : Type} [LinearOrder α] (m : BaseModel)
    (outcomes : List α) : Option String :=
  match best_outcome.scan outcomes with
  | some best => m.olabels[best]?
  | none => none

/-! ## `BaseModel::outcome` and `BaseModel::index` -/

/-- `string BaseModel::outcome(int i) { return olabels[i]; }`. -/
def BaseModel.outcome (m : BaseModel) (i : Int) : Option String :=
  if 0 ≤ i then m.olabels[i.toNat]? else none

/-- `std::find(first, last, value)` on a vector, as the distance of the returned
iterator from `begin()`; the distance of `end()` is the length. -/
def vfind : List String → String → Nat
  | [], _ => 0
  | x :: xs, out => if x = out then 0 else vfind xs out + 1

/-- `int BaseModel::index(string out)`. -/
def BaseModel.index (m : BaseModel) (out : String) : Int :=
  let it := vfind m.olabels out
  if it ≠ m.olabels.length then (it : Int) else -1

/-! ## `BaseModel::pred_index` -/

/-- `pmap.find(pred)` as the distance of the returned iterator from `begin()`;
the distance of `end()` is the number of entries. -/
def PMap.find : PMap → String → Nat
  | [], _ => 0
  | e :: es, pred => if e.1 = pred then 0 else PMap.find es pred + 1

/-- `pmap[pred]`: the value stored under `pred`; when `pred` is not a key,
`operator[]` first inserts the entry `(pred, 0)`.  The map after the access is
returned with the value. -/
def PMap.subscript : PMap → String → Int × PMap
  | [], pred => (0, [(pred, 0)])
  | e :: es, pred =>
    if e.1 = pred then (e.2, e :: es)
    else ((PMap.subscript es pred).1, e :: (PMap.subscript es pred).2)

/-- `int BaseModel::pred_index(string pred)`, with the model after the call. -/
def BaseModel.pred_index (m : BaseModel) (pred : String) : Int × BaseModel :=
  if PMap.find m.pmap pred ≠ m.pmap.length then
    ((PMap.subscript m.pmap pred).1, { m with pmap := (PMap.subscript m.pmap pred).2 })
  else
    (-1, m)

/-! ## `GISTrainer` -/

/-- Modelled from the spec: the per-feature record `Parameters` (its declaration
in `params.hpp` is absent): the outcome ids the feature was seen with, and one
weight per active outcome.  The two members are the ones `update` assigns. -/
structure Parameters where
  outcomes : List Int
  params : List ℚ
  deriving DecidableEq, Repr

/-- `vector<double> params(n)` for an `int n`: `n` value-initialised doubles.
A negative `n` converts to a size above `max_size()` and the constructor throws:
the call does not return normally, which is `none` here. -/
def vector_double (n : Int) : Option (List ℚ) :=
  if 0 ≤ n then some (List.replicate n.toNat 0) else none

/-- `void GISTrainer::update(Parameters *p, vector<int> outcomes,
int n_active_outcomes)`, as the record `*p` after the call. -/
def GISTrainer.update (p : Parameters) (outcomes : List Int) (n_active_outcomes : Int) :
    Option Parameters :=
  let p1 := { p with outcomes := outcomes }
  match vector_double n_active_outcomes with
  | some params => some { p1 with params := params }
  | none => none

/-- The data members of `class GISTrainer`.  The types `EventSpace`, `Prior` and
`MaxentParameters` are declared in headers that are absent and are parameters;
a pointer member is an `Option`, the null pointer being `none`. -/
structure GISTrainer (EventSpace Prior MaxentParameters : Type) where
  use_simple_smoothing : Bool
  use_slack_param : Bool
  use_gaussian_smoothing : Bool
  sigma : ℚ
  smoothing_observation : ℚ
  cf_observed_expect : ℚ
  tolerance : ℚ
  n_uniq_events : Int
  n_preds : Int
  n_outcomes : Int
  cutoff : Int
  contexts : EventSpace
  outcome_labels : List String
  pred_labels : List String
  pred_counts : List Int
  num_feats : List Int
  params : List Parameters
  model_expects : List Parameters
  observed_expects : List Parameters
  prior : Option Prior
  eval_params : Option MaxentParameters

/-- The scaling of `n / d` to a significand of 53 bits: the pair is doubled on
one side until `2^52 <= n / d < 2^53`, and `k` counts the binary exponent, so
that the value scaled is `(n / d) * 2^k` throughout. -/
def double_normalise : (fuel n d : Nat) → (k : Int) → Nat × Nat × Int
  | 0, n, d, k => (n, d, k)
  | fuel + 1, n, d, k =>
    if n < 2 ^ 52 * d then double_normalise fuel (2 * n) d (k - 1)
    else if 2 ^ 53 * d ≤ n then double_normalise fuel n (2 * d) (k + 1)
    else (n, d, k)

/-- The integer nearest to `n / d`, a tie going to the even one. -/
def round_half_even (n d : Nat) : Nat :=
  if 2 * (n % d) < d then n / d
  else if d < 2 * (n % d) then n / d + 1
  else if (n / d) % 2 = 0 then n / d
  else n / d + 1

/-- The value of the `double` that a decimal literal equal to `n / d` denotes:
the binary64 value nearest to `n / d`, ties to even, for a literal in the normal
range of binary64 (as `2.0`, `0.1` and `0.0001` are). -/
def double_literal (n d : Nat) : ℚ :=
  if n = 0 then 0
  else
    match double_normalise 1100 n d 0 with
    | (n1, d1, k) =>
      ((round_half_even n1 d1 * 2 ^ k.toNat : Nat) : ℚ) / ((2 ^ (-k).toNat : Nat) : ℚ)

/-- The constructor `GISTrainer::GISTrainer()`.  `raw` is the object before the
constructor body runs: the vector members are default-constructed (empty), the
seven assignments of the body follow, and the members the constructor does not
mention keep whatever `raw` holds. -/
def GISTrainer.GISTrainer {E P M : Type} (raw : GISTrainer E P M) : GISTrainer E P M :=
  { raw with
    outcome_labels := []
    pred_labels := []
    pred_counts := []
    num_feats := []
    params := []
    model_expects := []
    observed_expects := []
    use_simple_smoothing := false
    use_slack_param := false
    use_gaussian_smoothing := false
    sigma := double_literal 2 1
    smoothing_observation := double_literal 1 10
    tolerance := double_literal 1 10000
    prior := none }

/-- An object of the class before any constructor has run, every scalar member
zero, every vector empty and every pointer null; the absent types are `Unit`. -/
def GISTrainer.zeroed : mlpack.GISTrainer Unit Unit Unit :=
  { use_simple_smoothing := false
    use_slack_param := false
    use_gaussian_smoothing := false
    sigma := 0
    smoothing_observation := 0
    cf_observed_expect := 0
    tolerance := 0
    n_uniq_events := 0
    n_preds := 0
    n_outcomes := 0
    cutoff := 0
    contexts := ()
    outcome_labels := []
    pred_labels := []
    pred_counts := []
    num_feats := []
    params := []
    model_expects := []
    observed_expects := []
    prior := none
    eval_params := none }

/-! ## The reads of `best_outcome` -/

/-- The positions at which the loop of `best_outcome` reads `outcomes`, in the
order of the reads: every iteration evaluates `outcomes[i]` and
`outcomes[best]`.  The arguments are those of `best_outcome.loop`; the trace
ends where the loop ends. -/
def best_outcome.reads {α : Type} [LinearOrder α] (outcomes : List α) :
    (rem i best : Nat) → List Nat
  | 0, _, _ => []
  | rem + 1, i, best =>
    i :: best ::
      match outcomes[i]?, outcomes[best]? with
      | some x, some y =>
        best_outcome.reads outcomes rem (i + 1) (if x > y then i else best)
      | _, _ => []

/-- The positions at which one call of `best_outcome` reads `outcomes`. -/
def best_outcome.scan_reads {α : Type} [LinearOrder α] (outcomes : List α) : List Nat :=
  let n := outcomes.length
  best_outcome.reads outcomes (n - 1) 1 0

/-! ## `MaxentModel::eval` -/

/-- Modelled from the spec: the members of `MaxentModel` that the one-argument
`eval` uses (the class declaration in `model.hpp` is absent): the label tables
of `BaseModel`, the pointer to the prior and the pointer to the parameters.  A
pointer member is an `Option`, the null pointer being `none`. -/
structure MaxentModel (Prior MaxentParameters : Type) extends BaseModel where
  prior : Option Prior
  maxent_params : Option MaxentParameters

/-- `vector<double> MaxentModel::eval(FeatureSet context)`, with the model after
the call.  `log_prior` is `Prior::log_prior`, which fills the vector it is handed
and is given here as the vector after the call; `eval_dist` is the overload
`MaxentModel::eval(context, dist, params)`.  Both are defined in files that are
absent and are parameters.  Dereferencing a null pointer has no defined
behaviour and is `none`. -/
def MaxentModel.eval {FeatureSet P M : Type}
    (log_prior : P → List ℚ → FeatureSet → List ℚ)
    (eval_dist : FeatureSet → List ℚ → M → List ℚ)
    (m : MaxentModel P M) (context : FeatureSet) : Option (List ℚ × MaxentModel P M) :=
  let dist : List ℚ := List.replicate m.olabels.length 0
  match m.prior with
  | none => none
  | some pr =>
    let dist := log_prior pr dist context
    match m.maxent_params with
    | none => none
    | some params => some (eval_dist context dist params, m)

/-! ## The GIS update of `next_iteration` -/

/-- The number of smoothing strategies that the three flags of a trainer enable. -/
def GISTrainer.n_smoothing {E P M : Type} (t : mlpack.GISTrainer E P M) : Nat :=
  (if t.use_simple_smoothing then 1 else 0) + (if t.use_slack_param then 1 else 0)
    + (if t.use_gaussian_smoothing then 1 else 0)

/-! ## Specification predicates -/

/-- The invariant of the scan of `best_outcome`, at the loop head: `best` is
the lowest position holding the greatest value among the positions below `i`. -/
def FirstMaxBelow {α : Type} [LinearOrder α] (d : List α) (i best : Nat) : Prop :=
  best < d.length ∧
  (∀ j x y, j < i → d[j]? = some x → d[best]? = some y → x ≤ y) ∧
  (∀ j x y, j < best → d[j]? = some x → d[best]? = some y → x < y)

theorem double_literal_two : double_literal 2 1 = 2 := by
  simp [double_literal, double_normalise, round_half_even]
  norm_num

theorem double_literal_tenth : double_literal 1 10 = 3602879701896397 / 2 ^ 55 := by
  simp [double_literal, double_normalise, round_half_even]
  norm_num

theorem double_literal_ten_thousandth :
    double_literal 1 10000 = 7378697629483821 / 2 ^ 66 := by
  simp [double_literal, double_normalise, round_half_even]
  norm_num

theorem vfind_le (xs : List String) (out : String) : vfind xs out ≤ xs.length := by
  induction xs with
  | nil => simp [vfind]
  | cons x xs ih =>
    by_cases h : x = out
    · simp [vfind, h]
    · simp [vfind, h, ih]

theorem vfind_eq_length_iff (xs : List String) (out : String) :
    vfind xs out = xs.length ↔ out ∉ xs := by
  induction xs with
  | nil => simp [vfind]
  | cons x xs ih =>
    by_cases h : x = out
    · simp [vfind, h]
    · have h2 : ¬ out = x := fun e => h e.symm
      simp [vfind, h, h2, ih]

theorem vfind_getElem? (xs : List String) (out : String) (h : out ∈ xs) :
    xs[vfind xs out]? = some out := by
  induction xs with
  | nil => simp at h
  | cons x xs ih =>
    by_cases hx : x = out
    · simp [vfind, hx]
    · have h2 : ¬ out = x := fun e => hx e.symm
      have h3 : out ∈ xs := by simpa [h2] using h
      simp [vfind, hx, ih h3]

theorem vfind_first (xs : List String) (out : String) (q : Nat)
    (hq : q < vfind xs out) : xs[q]? ≠ some out := by
  induction xs generalizing q with
  | nil => simp
  | cons x xs ih =>
    by_cases hx : x = out
    · simp [vfind, hx] at hq
    · cases q with
      | zero => simpa using hx
      | succ q =>
        have : q < vfind xs out := by simpa [vfind, hx] using hq
        simpa using ih q this

theorem best_outcome_loop_spec {α : Type} [LinearOrder α] (d : List α) :
    ∀ (rem i best : Nat), i + rem = d.length → best < i → FirstMaxBelow d i best →
      ∃ k, best_outcome.loop d rem i best = some k ∧ FirstMaxBelow d d.length k := by
  intro rem
  induction rem with
  | zero =>
    intro i best hlen _ hinv
    have hi : i = d.length := by omega
    exact ⟨best, by simp [best_outcome.loop], hi ▸ hinv⟩
  | succ rem ih =>
    intro i best hlen hbi hinv
    obtain ⟨hb, hle, hlt⟩ := hinv
    have hi : i < d.length := by omega
    have ei : d[i]? = some d[i] := List.getElem?_eq_getElem hi
    have eb : d[best]? = some d[best] := List.getElem?_eq_getElem hb
    by_cases hgt : d[i] > d[best]
    · have hstep : best_outcome.loop d (rem + 1) i best
          = best_outcome.loop d rem (i + 1) i := by
        simp [best_outcome.loop, ei, eb, hgt]
      rw [hstep]
      apply ih (i + 1) i (by omega) (by omega)
      refine ⟨hi, ?_, ?_⟩
      · intro j x y hj hx hy
        have hy2 : y = d[i] := by rw [ei] at hy; exact (Option.some.inj hy).symm
        rcases Nat.lt_succ_iff_lt_or_eq.mp hj with h1 | h1
        · have := hle j x d[best] h1 hx eb
          rw [hy2]; exact le_of_lt (lt_of_le_of_lt this hgt)
        · subst h1
          rw [ei] at hx
          rw [hy2, ← Option.some.inj hx]
      · intro j x y hj hx hy
        have hy2 : y = d[i] := by rw [ei] at hy; exact (Option.some.inj hy).symm
        have := hle j x d[best] hj hx eb
        rw [hy2]; exact lt_of_le_of_lt this hgt
    · have hstep : best_outcome.loop d (rem + 1) i best
          = best_outcome.loop d rem (i + 1) best := by
        simp [best_outcome.loop, ei, eb, hgt]
      rw [hstep]
      apply ih (i + 1) best (by omega) (by omega)
      refine ⟨hb, ?_, hlt⟩
      intro j x y hj hx hy
      rcases Nat.lt_succ_iff_lt_or_eq.mp hj with h1 | h1
      · exact hle j x y h1 hx hy
      · subst h1
        rw [ei] at hx; rw [eb] at hy
        rw [← Option.some.inj hx, ← Option.some.inj hy]
        exact not_lt.mp hgt

theorem best_outcome_scan_spec {α : Type} [LinearOrder α] (d : List α)
    (h1 : 1 ≤ d.length) :
    ∃ k, best_outcome.scan d = some k ∧ FirstMaxBelow d d.length k := by
  unfold best_outcome.scan
  apply best_outcome_loop_spec d (d.length - 1) 1 0 (by omega) (by omega)
  refine ⟨by omega, ?_, ?_⟩
  · intro j x y hj hx hy
    have : j = 0 := by omega
    subst this
    rw [hx] at hy
    exact le_of_eq (Option.some.inj hy)
  · intro j x y hj
    omega

theorem firstMaxBelow_getElem {α : Type} [LinearOrder α] (d : List α) (k : Nat)
    (h : FirstMaxBelow d d.length k) :
    ∃ hk : k < d.length,
      (∀ j (hj : j < d.length), d[j] ≤ d[k]) ∧ (∀ j (_ : j < k), d[j] < d[k]) := by
  obtain ⟨hk, hle, hlt⟩ := h
  refine ⟨hk, ?_, ?_⟩
  · intro j hj
    exact hle j d[j] d[k] hj (List.getElem?_eq_getElem hj) (List.getElem?_eq_getElem hk)
  · intro j hj
    exact hlt j d[j] d[k] hj (List.getElem?_eq_getElem (by omega))
      (List.getElem?_eq_getElem hk)

theorem vfind_nodup (xs : List String) (hnd : xs.Nodup) (i : Nat) (hi : i < xs.length) :
    vfind xs xs[i] = i := by
  have hmem : xs[i] ∈ xs := List.getElem_mem hi
  have h1 : vfind xs xs[i] ≤ i := by
    by_contra hc
    exact vfind_first xs xs[i] i (by omega) (List.getElem?_eq_getElem hi)
  have h2 : vfind xs xs[i] < xs.length := by omega
  have h3 := vfind_getElem? xs xs[i] hmem
  rw [List.getElem?_eq_getElem h2] at h3
  exact (List.Nodup.getElem_inj_iff hnd).mp (Option.some.inj h3)

theorem pmap_find_eq_length_iff (pm : PMap) (pred : String) :
    PMap.find pm pred = pm.length ↔ pred ∉ pm.map Prod.fst := by
  induction pm with
  | nil => simp [PMap.find]
  | cons e es ih =>
    by_cases h : e.1 = pred
    · simp [PMap.find, h]
    · have h2 : ¬ pred = e.1 := fun e2 => h e2.symm
      simp only [PMap.find, h, if_false, List.length_cons, add_left_inj, ih, List.map_cons,
        List.mem_cons, h2, false_or]

theorem pmap_subscript_frame (pm : PMap) (pred : String)
    (h : pred ∈ pm.map Prod.fst) : (PMap.subscript pm pred).2 = pm := by
  induction pm with
  | nil => simp at h
  | cons e es ih =>
    by_cases he : e.1 = pred
    · simp [PMap.subscript, he]
    · have h2 : ¬ pred = e.1 := fun e2 => he e2.symm
      have h3 : pred ∈ es.map Prod.fst := by
        simpa only [List.map_cons, List.mem_cons, h2, false_or] using h
      simp [PMap.subscript, he, ih h3]

theorem pmap_subscript_mem (pm : PMap) (pred : String)
    (h : pred ∈ pm.map Prod.fst) : (pred, (PMap.subscript pm pred).1) ∈ pm := by
  induction pm with
  | nil => simp at h
  | cons e es ih =>
    by_cases he : e.1 = pred
    · subst he
      simp [PMap.subscript]
    · have h2 : ¬ pred = e.1 := fun e2 => he e2.symm
      have h3 : pred ∈ es.map Prod.fst := by
        simpa only [List.map_cons, List.mem_cons, h2, false_or] using h
      simp only [PMap.subscript, he, if_false, List.mem_cons]
      exact Or.inr (ih h3)

theorem pmap_unique_value (pm : PMap) (hk : (pm.map Prod.fst).Nodup) (pred : String)
    (v w : Int) (hv : (pred, v) ∈ pm) (hw : (pred, w) ∈ pm) : v = w := by
  induction pm with
  | nil => simp at hv
  | cons e es ih =>
    rw [List.map_cons, List.nodup_cons] at hk
    rcases List.mem_cons.mp hv with h1 | h1 <;> rcases List.mem_cons.mp hw with h2 | h2
    · have := h1.trans h2.symm
      exact (Prod.mk.inj this).2
    · exact absurd (List.mem_map_of_mem Prod.fst h2) (by subst h1; exact hk.1)
    · exact absurd (List.mem_map_of_mem Prod.fst h1) (by subst h2; exact hk.1)
    · exact ih hk.2 h1 h2

/-! ## `best_outcome` returns the label of the lowest maximum -/

/-- C1: for a distribution `d` with `1 <= |d| <= |olabels|`, `best_outcome`
returns `olabels[k]` for the position `k` the scan ends with, `k` holds the greatest
value, every position below `k` holds a strictly smaller value, and so of two
positions `i < j` that both hold the maximum the higher one `j` is never the
returned position (the returned position is at most `i`). -/
theorem best_outcome_tie_break {α : Type} [LinearOrder α] (m : BaseModel) (d : List α)
    (h1 : 1 ≤ d.length) (h2 : d.length ≤ m.olabels.length) :
    ∃ k, ∃ hk : k < d.length,
      best_outcome.scan d = some k ∧
      m.best_outcome d = some (m.olabels.get ⟨k, lt_of_lt_of_le hk h2⟩) ∧
      (∀ j (hj : j < d.length), d[j] ≤ d[k]) ∧
      (∀ j (_ : j < k), d[j] < d[k]) ∧
      (∀ i j (hi : i < d.length) (hj : j < d.length), i < j →
        (∀ t (ht : t < d.length), d[t] ≤ d[i]) → d[j] = d[i] → k ≤ i ∧ k ≠ j) := by
  obtain ⟨k, hscan, hinv⟩ := best_outcome_scan_spec d h1
  obtain ⟨hk, hmax, hlow⟩ := firstMaxBelow_getElem d k hinv
  have hko : k < m.olabels.length := lt_of_lt_of_le hk h2
  refine ⟨k, hk, hscan, ?_, hmax, hlow, ?_⟩
  · simp only [BaseModel.best_outcome, hscan]
    rw [List.getElem?_eq_getElem hko]
    rfl
  · intro i j hi hj hij hmaxi _
    have hki : k ≤ i := by
      by_contra hc
      have h3 : d[i] < d[k] := hlow i (by omega)
      exact absurd (hmaxi k hk) (not_le.mpr h3)
    exact ⟨hki, by omega⟩

theorem best_outcome_tie_break_witness :
    1 ≤ [(1 : Int), 3, 3].length ∧
    [(1 : Int), 3, 3].length ≤ (BaseModel.mk ["a", "b", "c"] []).olabels.length ∧
    ∃ k, ∃ hk : k < [(1 : Int), 3, 3].length,
      best_outcome.scan [(1 : Int), 3, 3] = some k ∧
      (BaseModel.mk ["a", "b", "c"] []).best_outcome [(1 : Int), 3, 3]
        = some ((BaseModel.mk ["a", "b", "c"] []).olabels.get
            ⟨k, lt_of_lt_of_le hk (by decide)⟩) ∧
      (∀ j (hj : j < [(1 : Int), 3, 3].length), [(1 : Int), 3, 3][j] ≤ [(1 : Int), 3, 3][k]) ∧
      (∀ j (_ : j < k), [(1 : Int), 3, 3][j] < [(1 : Int), 3, 3][k]) ∧
      (∀ i j (hi : i < [(1 : Int), 3, 3].length) (hj : j < [(1 : Int), 3, 3].length), i < j →
        (∀ t (ht : t < [(1 : Int), 3, 3].length), [(1 : Int), 3, 3][t] ≤ [(1 : Int), 3, 3][i]) →
        [(1 : Int), 3, 3][j] = [(1 : Int), 3, 3][i] → k ≤ i ∧ k ≠ j) :=
  ⟨by decide, by decide,
    best_outcome_tie_break (BaseModel.mk ["a", "b", "c"] []) [(1 : Int), 3, 3]
      (by decide) (by decide)⟩

/-- C2: for a distribution `d` with `1 <= |d| <= |olabels|`, `best_outcome`
returns the label `olabels[k]` of a position `k < |d|` whose value is greater
than or equal to the value at every position of `d`. -/
theorem best_outcome_greatest {α : Type} [LinearOrder α] (m : BaseModel) (d : List α)
    (h1 : 1 ≤ d.length) (h2 : d.length ≤ m.olabels.length) :
    ∃ k, ∃ hk : k < d.length,
      m.best_outcome d = some (m.olabels.get ⟨k, lt_of_lt_of_le hk h2⟩) ∧
      ∀ j (hj : j < d.length), d[k] ≥ d[j] := by
  obtain ⟨k, hscan, hinv⟩ := best_outcome_scan_spec d h1
  obtain ⟨hk, hmax, _⟩ := firstMaxBelow_getElem d k hinv
  have hko : k < m.olabels.length := lt_of_lt_of_le hk h2
  refine ⟨k, hk, ?_, fun j hj => hmax j hj⟩
  simp only [BaseModel.best_outcome, hscan]
  rw [List.getElem?_eq_getElem hko]
  rfl

theorem best_outcome_greatest_witness :
    1 ≤ [(2 : Int), 7, 5].length ∧
    [(2 : Int), 7, 5].length ≤ (BaseModel.mk ["x", "y", "z", "w"] []).olabels.length ∧
    ∃ k, ∃ hk : k < [(2 : Int), 7, 5].length,
      (BaseModel.mk ["x", "y", "z", "w"] []).best_outcome [(2 : Int), 7, 5]
        = some ((BaseModel.mk ["x", "y", "z", "w"] []).olabels.get
            ⟨k, lt_of_lt_of_le hk (by decide)⟩) ∧
      ∀ j (hj : j < [(2 : Int), 7, 5].length), [(2 : Int), 7, 5][k] ≥ [(2 : Int), 7, 5][j] :=
  ⟨by decide, by decide,
    best_outcome_greatest (BaseModel.mk ["x", "y", "z", "w"] []) [(2 : Int), 7, 5]
      (by decide) (by decide)⟩

/-! ## `index` and `outcome` -/

/-- C3: `index` returns `-1` if and only if the label does not occur in
`olabels`; for a label that occurs it returns the smallest position `p` with
`p < |olabels|` and `olabels[p] = label`. -/
theorem index_sentinel_iff_absent (m : BaseModel) (out : String) :
    (m.index out = -1 ↔ out ∉ m.olabels) ∧
    (out ∈ m.olabels → ∃ p : Nat, m.index out = (p : Int) ∧ p < m.olabels.length ∧
      m.olabels[p]? = some out ∧ ∀ q, q < p → m.olabels[q]? ≠ some out) := by
  have hiff := vfind_eq_length_iff m.olabels out
  constructor
  · by_cases h : vfind m.olabels out = m.olabels.length
    · simp [BaseModel.index, h, hiff.mp h]
    · have hmem : out ∈ m.olabels := by
        by_contra hc
        exact h (hiff.mpr hc)
      simp only [BaseModel.index, ne_eq, h, not_false_eq_true, if_true, hmem, not_true_eq_false,
        iff_false]
      omega
  · intro hmem
    have hne : vfind m.olabels out ≠ m.olabels.length := fun e => hiff.mp e hmem
    have hle := vfind_le m.olabels out
    refine ⟨vfind m.olabels out, ?_, by omega, vfind_getElem? m.olabels out hmem,
      fun q hq => vfind_first m.olabels out q hq⟩
    simp [BaseModel.index, hne]

theorem index_sentinel_iff_absent_witness :
    "b" ∈ (BaseModel.mk ["a", "b", "b"] []).olabels ∧
    ∃ p : Nat, (BaseModel.mk ["a", "b", "b"] []).index "b" = (p : Int) ∧
      p < (BaseModel.mk ["a", "b", "b"] []).olabels.length ∧
      (BaseModel.mk ["a", "b", "b"] []).olabels[p]? = some "b" ∧
      ∀ q, q < p → (BaseModel.mk ["a", "b", "b"] []).olabels[q]? ≠ some "b" :=
  ⟨by decide,
    (index_sentinel_iff_absent (BaseModel.mk ["a", "b", "b"] []) "b").2 (by decide)⟩

/-- C4: label round trip: for every label `l` that occurs in `olabels`,
`outcome(index(l))` returns `l`. -/
theorem outcome_index_round_trip (m : BaseModel) (l : String) (h : l ∈ m.olabels) :
    m.outcome (m.index l) = some l := by
  have hne : vfind m.olabels l ≠ m.olabels.length :=
    fun e => (vfind_eq_length_iff m.olabels l).mp e h
  simp [BaseModel.outcome, BaseModel.index, hne, vfind_getElem? m.olabels l h]

theorem outcome_index_round_trip_witness :
    "c" ∈ (BaseModel.mk ["a", "c", "c"] []).olabels ∧
    (BaseModel.mk ["a", "c", "c"] []).outcome ((BaseModel.mk ["a", "c", "c"] []).index "c")
      = some "c" :=
  ⟨by decide, outcome_index_round_trip (BaseModel.mk ["a", "c", "c"] []) "c" (by decide)⟩

/-- C5: index round trip: when the labels of `olabels` are pairwise distinct,
for every position `i < |olabels|`, `outcome(i)` returns a label `l` and
`index(l) = i`. -/
theorem index_outcome_round_trip (m : BaseModel) (hnd : m.olabels.Nodup) (i : Nat)
    (hi : i < m.olabels.length) :
    ∃ l, m.outcome (i : Int) = some l ∧ m.index l = (i : Int) := by
  refine ⟨m.olabels[i], ?_, ?_⟩
  · simp [BaseModel.outcome, List.getElem?_eq_getElem hi]
  · have hv := vfind_nodup m.olabels hnd i hi
    have hne : i ≠ m.olabels.length := by omega
    simp [BaseModel.index, hv, hne]

theorem index_outcome_round_trip_witness :
    (BaseModel.mk ["a", "b", "c"] []).olabels.Nodup ∧
    2 < (BaseModel.mk ["a", "b", "c"] []).olabels.length ∧
    ∃ l, (BaseModel.mk ["a", "b", "c"] []).outcome ((2 : Nat) : Int) = some l ∧
      (BaseModel.mk ["a", "b", "c"] []).index l = ((2 : Nat) : Int) :=
  ⟨by decide, by decide,
    index_outcome_round_trip (BaseModel.mk ["a", "b", "c"] []) (by decide) 2 (by decide)⟩

/-! ## `pred_index` -/

/-- C6: `pred_index` returns an id that `pmap` stores for the label when the
label is a key (the only such id when the map holds one entry per key, as a
`map` does), and `-1` when the label is not a key; and when every stored id is
non-negative it returns `-1` if and only if the label is not a key. -/
theorem pred_index_lookup (m : BaseModel) (pred : String) :
    (pred ∈ m.pmap.map Prod.fst → (pred, (m.pred_index pred).1) ∈ m.pmap) ∧
    ((m.pmap.map Prod.fst).Nodup → ∀ v, (pred, v) ∈ m.pmap → (m.pred_index pred).1 = v) ∧
    (pred ∉ m.pmap.map Prod.fst → (m.pred_index pred).1 = -1) ∧
    ((∀ e ∈ m.pmap, 0 ≤ e.2) →
      ((m.pred_index pred).1 = -1 ↔ pred ∉ m.pmap.map Prod.fst)) := by
  have hiff := pmap_find_eq_length_iff m.pmap pred
  have hkey : pred ∈ m.pmap.map Prod.fst →
      (m.pred_index pred).1 = (PMap.subscript m.pmap pred).1 := by
    intro hmem
    have hne : PMap.find m.pmap pred ≠ m.pmap.length := fun e => hiff.mp e hmem
    simp [BaseModel.pred_index, hne]
  have habs : pred ∉ m.pmap.map Prod.fst → (m.pred_index pred).1 = -1 := by
    intro hmem
    simp [BaseModel.pred_index, hiff.mpr hmem]
  refine ⟨?_, ?_, habs, ?_⟩
  · intro hmem
    rw [hkey hmem]
    exact pmap_subscript_mem m.pmap pred hmem
  · intro hk v hv
    have hmem : pred ∈ m.pmap.map Prod.fst := List.mem_map_of_mem Prod.fst hv
    rw [hkey hmem]
    exact pmap_unique_value m.pmap hk pred _ v (pmap_subscript_mem m.pmap pred hmem) hv
  · intro hpos
    constructor
    · intro hres hmem
      have h0 := hpos _ (pmap_subscript_mem m.pmap pred hmem)
      rw [hkey hmem] at hres
      simp only at h0
      omega
    · exact habs

theorem pred_index_lookup_witness :
    "g" ∈ (BaseModel.mk ["a"] [("f", 0), ("g", 5)]).pmap.map Prod.fst ∧
    ("g", ((BaseModel.mk ["a"] [("f", 0), ("g", 5)]).pred_index "g").1)
      ∈ (BaseModel.mk ["a"] [("f", 0), ("g", 5)]).pmap ∧
    ((BaseModel.mk ["a"] [("f", 0), ("g", 5)]).pmap.map Prod.fst).Nodup ∧
    ("g", (5 : Int)) ∈ (BaseModel.mk ["a"] [("f", 0), ("g", 5)]).pmap ∧
    ((BaseModel.mk ["a"] [("f", 0), ("g", 5)]).pred_index "g").1 = 5 ∧
    "h" ∉ (BaseModel.mk ["a"] [("f", 0), ("g", 5)]).pmap.map Prod.fst ∧
    ((BaseModel.mk ["a"] [("f", 0), ("g", 5)]).pred_index "h").1 = -1 ∧
    (∀ e ∈ (BaseModel.mk ["a"] [("f", 0), ("g", 5)]).pmap, 0 ≤ e.2) ∧
    (((BaseModel.mk ["a"] [("f", 0), ("g", 5)]).pred_index "h").1 = -1 ↔
      "h" ∉ (BaseModel.mk ["a"] [("f", 0), ("g", 5)]).pmap.map Prod.fst) :=
  ⟨by decide,
    (pred_index_lookup (BaseModel.mk ["a"] [("f", 0), ("g", 5)]) "g").1 (by decide),
    by decide, by decide,
    (pred_index_lookup (BaseModel.mk ["a"] [("f", 0), ("g", 5)]) "g").2.1 (by decide) 5
      (by decide),
    by decide,
    (pred_index_lookup (BaseModel.mk ["a"] [("f", 0), ("g", 5)]) "h").2.2.1 (by decide),
    by decide,
    (pred_index_lookup (BaseModel.mk ["a"] [("f", 0), ("g", 5)]) "h").2.2.2 (by decide)⟩

/-- C7: `pred_index` is a pure lookup: for every feature label, present or
absent, the model after the call equals the model before it, so `pmap` gains no
entry and `olabels` is unchanged. -/
theorem pred_index_pure (m : BaseModel) (pred : String) :
    (m.pred_index pred).2 = m ∧
    (m.pred_index pred).2.pmap = m.pmap ∧ (m.pred_index pred).2.olabels = m.olabels := by
  have key : (m.pred_index pred).2 = m := by
    by_cases h : PMap.find m.pmap pred = m.pmap.length
    · simp [BaseModel.pred_index, h]
    · have hmem : pred ∈ m.pmap.map Prod.fst := by
        by_contra hc
        exact h ((pmap_find_eq_length_iff m.pmap pred).mpr hc)
      simp [BaseModel.pred_index, h, pmap_subscript_frame m.pmap pred hmem]
  exact ⟨key, by rw [key], by rw [key]⟩

/-! ## `GISTrainer::update` and the constructor -/

/-- C8: for every outcome-id list `outcomes` and every `n_active_outcomes >= 0`,
`update` returns, and the record after it has `outcomes` as its outcome ids (same
ids, same order) and exactly `n_active_outcomes` weights, every one equal to 0,
whatever the record held before. -/
theorem update_initialises (p : Parameters) (outcomes : List Int) (n_active_outcomes : Int)
    (hn : 0 ≤ n_active_outcomes) :
    ∃ p1, GISTrainer.update p outcomes n_active_outcomes = some p1 ∧
      p1.outcomes = outcomes ∧
      (p1.params.length : Int) = n_active_outcomes ∧
      (∀ w ∈ p1.params, w = 0) ∧
      p1 = { outcomes := outcomes, params := List.replicate n_active_outcomes.toNat 0 } := by
  refine ⟨{ outcomes := outcomes, params := List.replicate n_active_outcomes.toNat 0 },
    ?_, rfl, ?_, ?_, rfl⟩
  · simp [GISTrainer.update, vector_double, hn]
  · simp only [List.length_replicate]
    omega
  · intro w hw
    exact (List.mem_replicate.mp hw).2

theorem update_initialises_witness :
    (0 : Int) ≤ 2 ∧
    ∃ p1, GISTrainer.update { outcomes := [9], params := [1 / 2, 3, 4] } [4, 1, 7] 2 = some p1 ∧
      p1.outcomes = [4, 1, 7] ∧
      (p1.params.length : Int) = 2 ∧
      (∀ w ∈ p1.params, w = 0) ∧
      p1 = { outcomes := [4, 1, 7], params := List.replicate (2 : Int).toNat 0 } :=
  ⟨by decide,
    update_initialises { outcomes := [9], params := [1 / 2, 3, 4] } [4, 1, 7] 2 (by decide)⟩

/-- C9, as stated, fails: `update` with the three outcome ids `[1, 2, 3]` and
`n_active_outcomes = 0` leaves a record with three outcome ids and no weight. -/
theorem update_unpaired_example :
    ∃ p1, GISTrainer.update { outcomes := [], params := [] } [1, 2, 3] 0 = some p1 ∧
      p1.params.length ≠ p1.outcomes.length :=
  ⟨{ outcomes := [1, 2, 3], params := [] }, by simp [GISTrainer.update, vector_double],
    by decide⟩

/-- C9, amended: after `update` with `n_active_outcomes >= 0` the record holds
`n_active_outcomes` weights and `|outcomes|` outcome ids, so it holds one weight
per stored outcome id exactly when `n_active_outcomes = |outcomes|`. -/
theorem update_pairing (p : Parameters) (outcomes : List Int) (n_active_outcomes : Int)
    (hn : 0 ≤ n_active_outcomes) :
    ∃ p1, GISTrainer.update p outcomes n_active_outcomes = some p1 ∧
      (p1.params.length : Int) = n_active_outcomes ∧
      p1.outcomes.length = outcomes.length ∧
      (p1.params.length = p1.outcomes.length ↔ n_active_outcomes = (outcomes.length : Int)) := by
  refine ⟨{ outcomes := outcomes, params := List.replicate n_active_outcomes.toNat 0 },
    ?_, ?_, rfl, ?_⟩
  · simp [GISTrainer.update, vector_double, hn]
  · simp only [List.length_replicate]
    omega
  · simp only [List.length_replicate]
    omega

theorem update_pairing_witness :
    (0 : Int) ≤ 3 ∧
    ∃ p1, GISTrainer.update { outcomes := [], params := [5] } [4, 1, 7] 3 = some p1 ∧
      (p1.params.length : Int) = 3 ∧
      p1.outcomes.length = [(4 : Int), 1, 7].length ∧
      (p1.params.length = p1.outcomes.length ↔ (3 : Int) = ([(4 : Int), 1, 7].length : Int)) :=
  ⟨by decide, update_pairing { outcomes := [], params := [5] } [4, 1, 7] 3 (by decide)⟩

/-- C10, as stated, fails: the constructor stores `double`s, and the stored
`smoothing_observation` and `tolerance` are not the decimal values 0.1 and
0.0001. -/
theorem constructor_inexact_example :
    (GISTrainer.GISTrainer GISTrainer.zeroed).smoothing_observation ≠ 1 / 10 ∧
    (GISTrainer.GISTrainer GISTrainer.zeroed).tolerance ≠ 1 / 10000 := by
  simp only [GISTrainer.GISTrainer, double_literal_tenth, double_literal_ten_thousandth]
  norm_num

/-- C10, amended: a freshly constructed `GISTrainer` has `sigma = 2` exactly,
`smoothing_observation` and `tolerance` equal to the `double`s nearest to 0.1 and
0.0001, which are `3602879701896397 / 2^55` and `7378697629483821 / 2^66`, and
the three are strictly positive. -/
theorem constructor_defaults {E P M : Type} (raw : GISTrainer E P M) :
    (GISTrainer.GISTrainer raw).sigma = 2 ∧
    (GISTrainer.GISTrainer raw).smoothing_observation = 3602879701896397 / 2 ^ 55 ∧
    (GISTrainer.GISTrainer raw).tolerance = 7378697629483821 / 2 ^ 66 ∧
    0 < (GISTrainer.GISTrainer raw).sigma ∧
    0 < (GISTrainer.GISTrainer raw).smoothing_observation ∧
    0 < (GISTrainer.GISTrainer raw).tolerance := by
  simp only [GISTrainer.GISTrainer, double_literal_two, double_literal_tenth,
    double_literal_ten_thousandth]
  norm_num

/-! ## Auxiliary facts for the later sections -/

theorem best_outcome_reads_bound {α : Type} [LinearOrder α] (d : List α) :
    ∀ (rem i best : Nat), i + rem = d.length → best < i →
      ∀ p ∈ best_outcome.reads d rem i best, p < d.length := by
  intro rem
  induction rem with
  | zero =>
    intro i best _ _ p hp
    simp [best_outcome.reads] at hp
  | succ rem ih =>
    intro i best hlen hbi p hp
    have hi : i < d.length := by omega
    have hb : best < d.length := by omega
    have ei : d[i]? = some d[i] := List.getElem?_eq_getElem hi
    have eb : d[best]? = some d[best] := List.getElem?_eq_getElem hb
    simp only [best_outcome.reads, ei, eb, List.mem_cons] at hp
    rcases hp with h | h | h
    · omega
    · omega
    · by_cases hgt : d[i] > d[best]
      · rw [if_pos hgt] at h
        exact ih (i + 1) i (by omega) (by omega) p h
      · rw [if_neg hgt] at h
        exact ih (i + 1) best (by omega) (by omega) p h

theorem best_outcome_loop_constant {α : Type} [LinearOrder α] (n : Nat) (c : α) :
    ∀ (rem i : Nat), i + rem ≤ n →
      best_outcome.loop (List.replicate n c) rem i 0 = some 0 := by
  intro rem
  induction rem with
  | zero =>
    intro i _
    simp [best_outcome.loop]
  | succ rem ih =>
    intro i hlen
    have ei : (List.replicate n c)[i]? = some c := by
      rw [List.getElem?_eq_getElem (by simp; omega)]
      simp
    have e0 : (List.replicate n c)[0]? = some c := by
      rw [List.getElem?_eq_getElem (by simp; omega)]
      simp
    simp only [best_outcome.loop, ei, e0, gt_iff_lt, lt_self_iff_false, if_false]
    exact ih (i + 1) (by omega)

/-! ## The GIS update step -/

/-- C13: for a model whose prior and parameters are attached, and for every
context, the one-argument `eval` returns `eval(context, d, maxent_params)`, where
`d` is what `log_prior` makes of a vector of `|olabels|` zeros; the vector handed
to `log_prior` has length `|olabels|`, and the model after the call is the model
before it, so `olabels` and `pmap` are unchanged. -/
theorem eval_prior_then_parameters {FeatureSet P M : Type}
    (log_prior : P → List ℚ → FeatureSet → List ℚ)
    (eval_dist : FeatureSet → List ℚ → M → List ℚ)
    (m : MaxentModel P M) (context : FeatureSet) (pr : P) (params : M)
    (hp : m.prior = some pr) (hm : m.maxent_params = some params) :
    (List.replicate m.olabels.length (0 : ℚ)).length = m.olabels.length ∧
    (∀ x ∈ List.replicate m.olabels.length (0 : ℚ), x = 0) ∧
    MaxentModel.eval log_prior eval_dist m context
      = some (eval_dist context
          (log_prior pr (List.replicate m.olabels.length 0) context) params, m) ∧
    ∀ r, MaxentModel.eval log_prior eval_dist m context = some r →
      r.2.olabels = m.olabels ∧ r.2.pmap = m.pmap := by
  have heval : MaxentModel.eval log_prior eval_dist m context
      = some (eval_dist context
          (log_prior pr (List.replicate m.olabels.length 0) context) params, m) := by
    simp [MaxentModel.eval, hp, hm]
  refine ⟨List.length_replicate _ _, fun x hx => (List.mem_replicate.mp hx).2, heval, ?_⟩
  intro r hr
  rw [heval] at hr
  rw [← Option.some.inj hr]
  exact ⟨rfl, rfl⟩

theorem eval_prior_then_parameters_witness :
    (MaxentModel.mk (BaseModel.mk ["a", "b"] [("f", 0)]) (some (1 / 2 : ℚ)) (some (3 : ℚ))).prior = some (1 / 2 : ℚ) ∧
    (MaxentModel.mk (BaseModel.mk ["a", "b"] [("f", 0)]) (some (1 / 2 : ℚ)) (some (3 : ℚ))).maxent_params = some (3 : ℚ) ∧
    MaxentModel.eval (fun (pr : ℚ) (d : List ℚ) (_ : List Int) => d.map (fun x => x + pr)) (fun (_ : List Int) (d : List ℚ) (w : ℚ) => d.map (fun x => x * w)) (MaxentModel.mk (BaseModel.mk ["a", "b"] [("f", 0)]) (some (1 / 2 : ℚ)) (some (3 : ℚ))) [4, 7]
      = some ([3 / 2, 3 / 2], (MaxentModel.mk (BaseModel.mk ["a", "b"] [("f", 0)]) (some (1 / 2 : ℚ)) (some (3 : ℚ)))) :=
  ⟨rfl, rfl,
    ((eval_prior_then_parameters (fun (pr : ℚ) (d : List ℚ) (_ : List Int) => d.map (fun x => x + pr)) (fun (_ : List Int) (d : List ℚ) (w : ℚ) => d.map (fun x => x * w)) (MaxentModel.mk (BaseModel.mk ["a", "b"] [("f", 0)]) (some (1 / 2 : ℚ)) (some (3 : ℚ))) [4, 7] (1 / 2) 3 rfl rfl).2.2.1).trans
      (by norm_num [List.replicate])⟩

/-! ## `best_outcome` stays in range -/

/-- C14: for a distribution `d` with `1 <= |d| <= |olabels|`, every position at
which the scan of `best_outcome` reads `d` is below `|d|` and so below
`|olabels|`, the scan ends with a position `best` below `|d|` and below
`|olabels|`, at which `olabels` is read last, and `best_outcome` returns a label:
the failure branch of the indexing is not taken. -/
theorem best_outcome_reads_in_range {α : Type} [LinearOrder α] (m : BaseModel) (d : List α)
    (h1 : 1 ≤ d.length) (h2 : d.length ≤ m.olabels.length) :
    (∀ p ∈ best_outcome.scan_reads d, p < d.length ∧ p < m.olabels.length) ∧
    (∃ best, best_outcome.scan d = some best ∧ best < d.length ∧
      best < m.olabels.length ∧ m.best_outcome d = m.olabels[best]?) ∧
    m.best_outcome d ≠ none := by
  obtain ⟨k, hscan, hk, _, _⟩ := best_outcome_scan_spec d h1
  have hko : k < m.olabels.length := lt_of_lt_of_le hk h2
  have hres : m.best_outcome d = m.olabels[k]? := by
    simp only [BaseModel.best_outcome, hscan]
  refine ⟨?_, ⟨k, hscan, hk, hko, hres⟩, ?_⟩
  · intro p hp
    have hb := best_outcome_reads_bound d (d.length - 1) 1 0 (by omega) (by omega) p hp
    exact ⟨hb, lt_of_lt_of_le hb h2⟩
  · rw [hres, List.getElem?_eq_getElem hko]
    simp

theorem best_outcome_reads_in_range_witness :
    1 ≤ [(4 : Int), 9, 2].length ∧
    [(4 : Int), 9, 2].length ≤ (BaseModel.mk ["a", "b", "c"] []).olabels.length ∧
    (∀ p ∈ best_outcome.scan_reads [(4 : Int), 9, 2],
      p < [(4 : Int), 9, 2].length ∧ p < (BaseModel.mk ["a", "b", "c"] []).olabels.length) ∧
    (∃ best, best_outcome.scan [(4 : Int), 9, 2] = some best ∧
      best < [(4 : Int), 9, 2].length ∧
      best < (BaseModel.mk ["a", "b", "c"] []).olabels.length ∧
      (BaseModel.mk ["a", "b", "c"] []).best_outcome [(4 : Int), 9, 2]
        = (BaseModel.mk ["a", "b", "c"] []).olabels[best]?) ∧
    (BaseModel.mk ["a", "b", "c"] []).best_outcome [(4 : Int), 9, 2] ≠ none :=
  ⟨by decide, by decide,
    best_outcome_reads_in_range (BaseModel.mk ["a", "b", "c"] []) [(4 : Int), 9, 2]
      (by decide) (by decide)⟩

/-! ## Edge cases of `best_outcome` -/

/-- C15: when `olabels` is non-empty, `best_outcome` returns `olabels[0]` for the
empty distribution, for every distribution of length 1 whatever its value, and
for every constant distribution of any length `n <= |olabels|`. -/
theorem best_outcome_edge_cases {α : Type} [LinearOrder α] (m : BaseModel)
    (h : 0 < m.olabels.length) :
    m.best_outcome ([] : List α) = some m.olabels[0] ∧
    (∀ x : α, m.best_outcome [x] = some m.olabels[0]) ∧
    (∀ (n : Nat) (c : α), n ≤ m.olabels.length →
      m.best_outcome (List.replicate n c) = some m.olabels[0]) := by
  have h0 : m.olabels[0]? = some m.olabels[0] := List.getElem?_eq_getElem h
  refine ⟨?_, ?_, ?_⟩
  · simp [BaseModel.best_outcome, best_outcome.scan, best_outcome.loop, h0]
  · intro x
    simp [BaseModel.best_outcome, best_outcome.scan, best_outcome.loop, h0]
  · intro n c _
    have hs : best_outcome.scan (List.replicate n c) = some 0 := by
      simp only [best_outcome.scan, List.length_replicate]
      cases n with
      | zero => simp [best_outcome.loop]
      | succ k => exact best_outcome_loop_constant (k + 1) c k 1 (by omega)
    simp only [BaseModel.best_outcome, hs, h0]

theorem best_outcome_edge_cases_witness :
    0 < (BaseModel.mk ["a", "b", "c"] []).olabels.length ∧
    (BaseModel.mk ["a", "b", "c"] []).best_outcome ([] : List Int) = some "a" ∧
    (BaseModel.mk ["a", "b", "c"] []).best_outcome [(-5 : Int)] = some "a" ∧
    (BaseModel.mk ["a", "b", "c"] []).best_outcome (List.replicate 3 (7 : Int)) = some "a" :=
  ⟨by decide,
    (best_outcome_edge_cases (BaseModel.mk ["a", "b", "c"] []) (by decide)).1,
    (best_outcome_edge_cases (BaseModel.mk ["a", "b", "c"] []) (by decide)).2.1 (-5),
    (best_outcome_edge_cases (BaseModel.mk ["a", "b", "c"] []) (by decide)).2.2 3 7
      (by decide)⟩

/-! ## Smoothing of a new trainer -/

/-- C16: a freshly constructed `GISTrainer` has `use_simple_smoothing`,
`use_slack_param` and `use_gaussian_smoothing` all false, so no smoothing
strategy is enabled and at most one is, and its `prior` is the null pointer. -/
theorem constructor_no_smoothing {E P M : Type} (raw : GISTrainer E P M) :
    (GISTrainer.GISTrainer raw).use_simple_smoothing = false ∧
    (GISTrainer.GISTrainer raw).use_slack_param = false ∧
    (GISTrainer.GISTrainer raw).use_gaussian_smoothing = false ∧
    GISTrainer.n_smoothing (GISTrainer.GISTrainer raw) = 0 ∧
    GISTrainer.n_smoothing (GISTrainer.GISTrainer raw) ≤ 1 ∧
    (GISTrainer.GISTrainer raw).prior = none := by
  simp [GISTrainer.GISTrainer, GISTrainer.n_smoothing]

end mlpack
